import Mathlib

/-!
Verification of the `try-collect` library: a partially-initialized
fixed-capacity buffer (`PartialArray`) and a try-from-iterator adapter
(`try_from_iter`) that collects an iterator of unknown length into a
fixed-size array of exactly `N` elements, or reports a length mismatch.

Modelling choices (shallow embedding of `src/lib.rs`):
- The storage `[MaybeUninit<A>; N]` is a `List (Option A)` of length `N`;
  an initialized slot holds `some v`, an uninitialized slot holds `none`.
- A Rust panic (failed `assert!`) is modelled as `Option.none` on the
  result of the operation, so `push` and `into_array` return `Option`.
- The unsafe whole-array read in `into_array` is modelled by `readInit`,
  which succeeds exactly when every slot is initialized (an uninitialized
  slot read as `A` would be undefined behaviour; that collapses to `none`).
- `Drop for PartialArray` runs `drop_in_place` on slots `0, 1, ..., len-1`
  in ascending order; we model the loop's actions as the list of pairs
  `(index, slot contents)` it touches, computed by `dropIter` (structural
  recursion on remaining fuel, mirroring the `for i in 0..self.len` loop).
- `mem::forget(self)` in `into_array` disarms the destructor: the
  buffer shell destructs nothing afterwards.  `finalizeLifecycle` records
  this: the pair is (values destructed by the forgotten buffer shell,
  values destructed later by the returned array's own drop, in index order).
-/

/-- The adapter's error type `NonMatchingLenError`: a payload-free unit
struct (`pub struct NonMatchingLenError;`). -/
structure NonMatchingLenError where

deriving instance DecidableEq for NonMatchingLenError

/-- The buffer `PartialArray<A, N>`: `array: [MaybeUninit<A>; N]` is a list
of `N` optional slots, `len: usize` the count of initialized leading slots. -/
structure PartialArray (A : Type) (N : Nat) where
  array : List (Option A)
  len : Nat

deriving instance DecidableEq for PartialArray

/-- `PartialArray::new()`: all `N` slots uninitialized, `len = 0`. -/
def PartialArray.new (A : Type) (N : Nat) : PartialArray A N :=
  ⟨List.replicate N none, 0⟩

/-- `PartialArray::push(&mut self, val)`: `assert!(self.len < N)` (a failed
assertion is a panic, modelled as `none`), then `self.array[self.len].write(val)`
and `self.len += 1`. -/
def PartialArray.push {A : Type} {N : Nat} (p : PartialArray A N) (val : A) :
    Option (PartialArray A N) :=
  if p.len < N then some ⟨p.array.set p.len (some val), p.len + 1⟩ else none

/-- `PartialArray::full(&self)`: `self.len == N`. -/
def PartialArray.full {A : Type} {N : Nat} (p : PartialArray A N) : Bool :=
  p.len == N

/-- The unsafe read `(&self.array as *const _ as *const [A; N]).read()`:
reading the storage as a fully-initialized array succeeds exactly when
every slot holds a value (reading an uninitialized slot is UB, `none`). -/
def readInit {A : Type} : List (Option A) → Option (List A)
  | [] => some []
  | none :: _ => none
  | some a :: rest => (readInit rest).map (a :: ·)

/-- `PartialArray::into_array(self)`: `assert!(self.full())` (panic as
`none`), then read the storage as `[A; N]`; `mem::forget(self)` then
prevents the destructor from running (see `finalizeLifecycle`). -/
def PartialArray.into_array {A : Type} {N : Nat} (p : PartialArray A N) :
    Option (List A) :=
  if p.full then readInit p.array else none

/-- The loop of `Drop for PartialArray`: `for i in 0..len` performs
`drop_in_place(array[i])`.  `dropIter arr len fuel i` lists the actions
`(i, arr[i])` for `i, i+1, ...` while `i < len`, with enough fuel. -/
def dropIter {A : Type} (arr : List (Option A)) (len : Nat) :
    Nat → Nat → List (Nat × Option A)
  | 0, _ => []
  | fuel + 1, i =>
    if i < len then (i, arr.getD i none) :: dropIter arr len fuel (i + 1) else []

/-- The actions of `Drop for PartialArray` on buffer `p`: the slots it
drops through, in the order the loop visits them. -/
def PartialArray.dropActions {A : Type} {N : Nat} (p : PartialArray A N) :
    List (Nat × Option A) :=
  dropIter p.array p.len p.len 0

/-- The values destructed by a list of drop actions, in order. -/
def destructedValues {A : Type} (l : List (Nat × Option A)) : List A :=
  l.filterMap Prod.snd

/-- Running a sequence of `push` calls (panic propagates as `none`).
This is the reachability relation for buffer states: a buffer state is
reachable exactly when it is `pushAll (PartialArray.new A N) vs` for the
list `vs` of values pushed so far. -/
def pushAll {A : Type} {N : Nat} : PartialArray A N → List A → Option (PartialArray A N)
  | p, [] => some p
  | p, v :: vs => (p.push v).bind fun q => pushAll q vs

/-- The lifecycle of `into_array` followed by dropping the returned array:
`mem::forget(self)` makes the consumed buffer shell destruct nothing
(first component `[]`), and the returned `[A; N]`, when dropped, destructs
its `N` elements in index order (second component). `none` models the
assertion panic / UB path. -/
def finalizeLifecycle {A : Type} {N : Nat} (p : PartialArray A N) :
    Option (List A × List A) :=
  (p.into_array).map fun arr => ([], arr)

/-- The observable outcome of one `try_from_iter` run:
the returned `Result`, the number of values pulled from the iterator,
and the drop actions of the transient buffer (empty when the buffer was
consumed by `into_array`, whose `mem::forget` disarms the destructor). -/
structure RunResult (A : Type) where
  result : Except NonMatchingLenError (List A)
  consumed : Nat
  dropped : List (Nat × Option A)

/-- The `for val in iter` loop of `try_from_iter`, starting from buffer
state `p`: if the buffer is full, return `Err(NonMatchingLenError)` without
pushing (the buffer is abandoned, running its destructor); otherwise push
and continue.  When the iterator is exhausted: if the buffer is not full,
`Err(NonMatchingLenError)` (buffer abandoned); else `Ok(into_array())`. -/
def tryFromIterLoop {A : Type} {N : Nat} :
    PartialArray A N → List A → Option (RunResult A)
  | p, [] =>
    if p.full then (p.into_array).map fun arr => ⟨Except.ok arr, 0, []⟩
    else some ⟨Except.error ⟨⟩, 0, p.dropActions⟩
  | p, v :: vs =>
    if p.full then some ⟨Except.error ⟨⟩, 1, p.dropActions⟩
    else (p.push v).bind fun q =>
      (tryFromIterLoop q vs).map fun r => ⟨r.result, r.consumed + 1, r.dropped⟩

/-- `<[A; N] as TryFromIterator<A>>::try_from_iter(iter)`: run the loop on a
fresh buffer. -/
def try_from_iter (A : Type) (N : Nat) (input : List A) : Option (RunResult A) :=
  tryFromIterLoop (PartialArray.new A N) input

/-- The canonical buffer state after pushing the values `vs` (in order)
into a fresh buffer: slots `[0, vs.length)` initialized with `vs`, the
rest uninitialized. -/
def canonState (A : Type) (N : Nat) (vs : List A) : PartialArray A N :=
  ⟨vs.map some ++ List.replicate (N - vs.length) none, vs.length⟩

lemma canonState_nil (A : Type) (N : Nat) : canonState A N [] = PartialArray.new A N := rfl

lemma readInit_map_some {A : Type} (vs : List A) : readInit (vs.map some) = some vs := by
  induction vs with
  | nil => rfl
  | cons a t ih => simp [readInit, ih]

lemma set_append_length {A : Type} (l₁ l₂ : List A) (a : A) :
    (l₁ ++ l₂).set l₁.length a = l₁ ++ l₂.set 0 a := by
  induction l₁ with
  | nil => rfl
  | cons x t ih => simp [List.set, ih]

lemma set_map_some_replicate {A : Type} (vs : List A) (v : A) :
    ∀ N : Nat, vs.length < N →
    (vs.map some ++ List.replicate (N - vs.length) (none : Option A)).set
        vs.length (some v)
      = (vs ++ [v]).map some ++ List.replicate (N - (vs.length + 1)) none := by
  induction vs with
  | nil =>
    intro N hN
    obtain ⟨M, rfl⟩ : ∃ M, N = M + 1 := ⟨N - 1, by omega⟩
    simp [List.replicate_succ]
  | cons a t ih =>
    intro N hN
    obtain ⟨M, rfl⟩ : ∃ M, N = M + 1 := ⟨N - 1, by omega⟩
    have ht : t.length < M := by simpa using hN
    have h1 : M + 1 - (t.length + 1) = M - t.length := by omega
    have h2 : M + 1 - (t.length + 1 + 1) = M - (t.length + 1) := by omega
    simp only [List.map_cons, List.length_cons, List.cons_append, List.set,
      List.append_eq, h1, h2]
    rw [ih M ht]

lemma push_canonState {A : Type} {N : Nat} (vs : List A) (v : A)
    (h : vs.length < N) :
    (canonState A N vs).push v = some (canonState A N (vs ++ [v])) := by
  simp only [canonState, PartialArray.push, h, if_pos]
  rw [set_map_some_replicate vs v N h]
  simp

lemma push_canonState_full {A : Type} {N : Nat} (vs : List A) (v : A)
    (h : vs.length = N) : (canonState A N vs).push v = none := by
  simp [PartialArray.push, canonState, h]

lemma full_canonState {A : Type} {N : Nat} (vs : List A) :
    (canonState A N vs).full = (vs.length == N) := rfl

lemma into_array_canonState {A : Type} {N : Nat} (vs : List A)
    (h : vs.length = N) : (canonState A N vs).into_array = some vs := by
  subst h
  simp [PartialArray.into_array, PartialArray.full, canonState, Nat.sub_self,
    readInit_map_some]

lemma dropIter_spec {A : Type} (arr : List (Option A)) (len : Nat) :
    ∀ (fuel i : Nat), len ≤ i + fuel →
    dropIter arr len fuel i
      = (List.range' i (len - i)).map fun j => (j, arr.getD j none) := by
  intro fuel
  induction fuel with
  | zero =>
    intro i h
    have h0 : len - i = 0 := by omega
    simp [dropIter, h0]
  | succ f ih =>
    intro i h
    by_cases hi : i < len
    · have hs : len - i = (len - (i + 1)) + 1 := by omega
      rw [dropIter, if_pos hi, hs, List.range'_succ, List.map_cons,
        ih (i + 1) (by omega)]
    · have h0 : len - i = 0 := by omega
      rw [dropIter, if_neg hi]
      simp [h0]

lemma dropActions_eq {A : Type} {N : Nat} (p : PartialArray A N) :
    p.dropActions = (List.range p.len).map fun j => (j, p.array.getD j none) := by
  rw [PartialArray.dropActions, dropIter_spec p.array p.len p.len 0 (by omega),
    List.range_eq_range']
  simp

lemma dropActions_canonState {A : Type} {N : Nat} (vs : List A) :
    (canonState A N vs).dropActions
      = (List.range vs.length).map fun j => (j, vs[j]?) := by
  rw [dropActions_eq]
  simp only [canonState]
  apply List.map_congr_left
  intro j hj
  have hjlt : j < vs.length := List.mem_range.mp hj
  have hjm : j < (vs.map (some : A → Option A)).length := by simpa using hjlt
  rw [List.getD_eq_getElem?_getD, List.getElem?_append_left hjm,
    List.getElem?_map, List.getElem?_eq_getElem hjlt]
  simp

lemma filterMap_range'_getElem {A : Type} (vs : List A) :
    ∀ (t s : List A), vs = s ++ t →
    (List.range' s.length t.length).filterMap (fun j => vs[j]?) = t := by
  intro t
  induction t with
  | nil => intro s hs; simp
  | cons a t ih =>
    intro s hs
    have hv : vs[s.length]? = some a := by
      rw [hs, List.getElem?_append_right (Nat.le_refl _)]
      simp
    simp only [List.length_cons]
    rw [List.range'_succ, List.filterMap_cons, hv]
    have hlen : (s ++ [a]).length = s.length + 1 := by simp
    rw [← hlen, ih (s ++ [a]) (by simp [hs])]

lemma filterMap_range_getElem {A : Type} (vs : List A) :
    (List.range vs.length).filterMap (fun j => vs[j]?) = vs := by
  rw [List.range_eq_range']
  simpa using filterMap_range'_getElem vs vs [] rfl

lemma destructedValues_canonState {A : Type} {N : Nat} (vs : List A) :
    destructedValues (canonState A N vs).dropActions = vs := by
  rw [dropActions_canonState vs, destructedValues, List.filterMap_map]
  exact filterMap_range_getElem vs

lemma loop_nil_notfull {A : Type} {N : Nat} (p : PartialArray A N)
    (h : p.full = false) :
    tryFromIterLoop p [] = some ⟨Except.error ⟨⟩, 0, p.dropActions⟩ := by
  simp [tryFromIterLoop, h]

lemma loop_nil_full {A : Type} {N : Nat} (p : PartialArray A N)
    (h : p.full = true) :
    tryFromIterLoop p []
      = (p.into_array).map fun arr => ⟨Except.ok arr, 0, []⟩ := by
  simp [tryFromIterLoop, h]

lemma loop_cons_full {A : Type} {N : Nat} (p : PartialArray A N)
    (h : p.full = true) (v : A) (vs : List A) :
    tryFromIterLoop p (v :: vs) = some ⟨Except.error ⟨⟩, 1, p.dropActions⟩ := by
  simp [tryFromIterLoop, h]

lemma loop_cons_notfull {A : Type} {N : Nat} (p : PartialArray A N)
    (h : p.full = false) (v : A) (vs : List A) :
    tryFromIterLoop p (v :: vs) = (p.push v).bind fun q =>
      (tryFromIterLoop q vs).map fun r => ⟨r.result, r.consumed + 1, r.dropped⟩ := by
  simp [tryFromIterLoop, h]

/-- Master characterization of the adapter loop, running on the canonical
state after `vs` pushes: underflow, exact fit, or overflow. -/
lemma tryFromIterLoop_canonState {A : Type} {N : Nat} :
    ∀ (input vs : List A), vs.length ≤ N →
    tryFromIterLoop (canonState A N vs) input =
      if vs.length + input.length < N then
        some ⟨Except.error ⟨⟩, input.length, (canonState A N (vs ++ input)).dropActions⟩
      else if vs.length + input.length = N then
        some ⟨Except.ok (vs ++ input), input.length, []⟩
      else
        some ⟨Except.error ⟨⟩, N - vs.length + 1,
          (canonState A N ((vs ++ input).take N)).dropActions⟩ := by
  intro input
  induction input with
  | nil =>
    intro vs h
    rcases Nat.lt_or_ge vs.length N with hlt | hge
    · have hfull : (canonState A N vs).full = false := by
        rw [full_canonState, beq_eq_false_iff_ne]
        omega
      rw [loop_nil_notfull _ hfull, List.length_nil, List.append_nil,
        if_pos (by omega)]
    · have heq : vs.length = N := by omega
      have hfull : (canonState A N vs).full = true := by
        rw [full_canonState]
        simp [heq]
      rw [loop_nil_full _ hfull, into_array_canonState vs heq, Option.map_some',
        List.length_nil, List.append_nil, if_neg (by omega), if_pos (by omega)]
  | cons v rest ih =>
    intro vs h
    rcases Nat.lt_or_ge vs.length N with hlt | hge
    · have hfull : (canonState A N vs).full = false := by
        rw [full_canonState, beq_eq_false_iff_ne]
        omega
      have happ : (vs ++ [v]) ++ rest = vs ++ (v :: rest) := by simp
      rw [loop_cons_notfull _ hfull v rest, push_canonState vs v hlt,
        Option.some_bind, ih (vs ++ [v]) (by simp [Nat.succ_le_of_lt hlt])]
      rcases Nat.lt_trichotomy (vs.length + (rest.length + 1)) N with h1 | h1 | h1
      · rw [if_pos (by simp only [List.length_append, List.length_cons,
            List.length_nil]; omega), Option.map_some',
          if_pos (by simp only [List.length_cons]; omega)]
        simp [happ]
      · rw [if_neg (by simp only [List.length_append, List.length_cons,
            List.length_nil]; omega),
          if_pos (by simp only [List.length_append, List.length_cons,
            List.length_nil]; omega), Option.map_some',
          if_neg (by simp only [List.length_cons]; omega),
          if_pos (by simp only [List.length_cons]; omega)]
        simp [happ]
      · rw [if_neg (by simp only [List.length_append, List.length_cons,
            List.length_nil]; omega),
          if_neg (by simp only [List.length_append, List.length_cons,
            List.length_nil]; omega), Option.map_some',
          if_neg (by simp only [List.length_cons]; omega),
          if_neg (by simp only [List.length_cons]; omega), happ]
        have hc : N - (vs ++ [v]).length + 1 + 1 = N - vs.length + 1 := by
          simp only [List.length_append, List.length_cons, List.length_nil]
          omega
        rw [hc]
    · have heq : vs.length = N := by omega
      have hfull : (canonState A N vs).full = true := by
        rw [full_canonState]
        simp [heq]
      have htake : (vs ++ (v :: rest)).take N = vs := by
        rw [← heq]
        exact List.take_left vs (v :: rest)
      rw [loop_cons_full _ hfull v rest,
        if_neg (by simp only [List.length_cons]; omega),
        if_neg (by simp only [List.length_cons]; omega), htake, heq,
        Nat.sub_self, Nat.zero_add]

lemma try_from_iter_short {A : Type} {N : Nat} (input : List A)
    (h : input.length < N) :
    try_from_iter A N input
      = some ⟨Except.error ⟨⟩, input.length, (canonState A N input).dropActions⟩ := by
  rw [try_from_iter, ← canonState_nil,
    tryFromIterLoop_canonState input [] (by simp)]
  simp only [List.length_nil, List.nil_append, Nat.zero_add]
  rw [if_pos h]

lemma try_from_iter_exact {A : Type} {N : Nat} (input : List A)
    (h : input.length = N) :
    try_from_iter A N input = some ⟨Except.ok input, input.length, []⟩ := by
  rw [try_from_iter, ← canonState_nil,
    tryFromIterLoop_canonState input [] (by simp)]
  simp only [List.length_nil, List.nil_append, Nat.zero_add]
  rw [if_neg (by omega), if_pos h]

lemma try_from_iter_long {A : Type} {N : Nat} (input : List A)
    (h : N < input.length) :
    try_from_iter A N input
      = some ⟨Except.error ⟨⟩, N + 1, (canonState A N (input.take N)).dropActions⟩ := by
  rw [try_from_iter, ← canonState_nil,
    tryFromIterLoop_canonState input [] (by simp)]
  simp only [List.length_nil, List.nil_append, Nat.zero_add, Nat.sub_zero]
  rw [if_neg (by omega), if_neg (by omega)]

lemma pushAll_canonState {A : Type} {N : Nat} :
    ∀ (vs ws : List A), ws.length ≤ N →
    pushAll (canonState A N ws) vs =
      if ws.length + vs.length ≤ N then some (canonState A N (ws ++ vs)) else none := by
  intro vs
  induction vs with
  | nil =>
    intro ws h
    simp [pushAll, h]
  | cons v t ih =>
    intro ws h
    rcases Nat.lt_or_ge ws.length N with hlt | hge
    · simp only [pushAll, push_canonState ws v hlt, Option.some_bind]
      rw [ih (ws ++ [v]) (by simp; omega)]
      rcases le_or_lt (ws.length + (t.length + 1)) N with h1 | h1
      · rw [if_pos (by simp; omega), if_pos (by simp; omega)]
        simp
      · rw [if_neg (by simp; omega), if_neg (by simp; omega)]
    · have heq : ws.length = N := by omega
      simp only [pushAll, push_canonState_full ws v heq, Option.none_bind]
      rw [if_neg (by simp; omega)]

lemma pushAll_new {A : Type} {N : Nat} (vs : List A) :
    pushAll (PartialArray.new A N) vs =
      if vs.length ≤ N then some (canonState A N vs) else none := by
  rw [← canonState_nil, pushAll_canonState vs [] (by simp)]
  simp

lemma pushAll_new_some {A : Type} {N : Nat} {vs : List A} {p : PartialArray A N}
    (h : pushAll (PartialArray.new A N) vs = some p) :
    vs.length ≤ N ∧ p = canonState A N vs := by
  rw [pushAll_new] at h
  by_cases hle : vs.length ≤ N
  · rw [if_pos hle] at h
    exact ⟨hle, (Option.some.injEq _ _ ▸ h).symm⟩
  · rw [if_neg hle] at h
    exact absurd h (by simp)

lemma readInit_all_some {A : Type} :
    ∀ arr : List (Option A), (∀ o ∈ arr, o.isSome) → ∃ vs, readInit arr = some vs := by
  intro arr
  induction arr with
  | nil => intro _; exact ⟨[], rfl⟩
  | cons o t ih =>
    intro hall
    have ho : o.isSome := hall o (List.mem_cons_self o t)
    cases o with
    | none => simp at ho
    | some a =>
      obtain ⟨vs, hvs⟩ := ih fun x hx => hall x (List.mem_cons_of_mem _ hx)
      exact ⟨a :: vs, by simp [readInit, hvs]⟩

/-- Claim C1: for every `N` and every input sequence of exactly `N` values,
`try_from_iter` returns success with the completed array containing those
`N` values in the order produced by the sequence (consuming all `N` values,
with the buffer consumed by `into_array`, so it destructs nothing). -/
theorem C1_roundtrip_exact_length {A : Type} {N : Nat} (input : List A)
    (h : input.length = N) :
    try_from_iter A N input = some ⟨Except.ok input, input.length, []⟩ :=
  try_from_iter_exact input h

/-- Witness for C1 at `N = 3`, input `[1, 2, 3]`. -/
theorem C1_roundtrip_exact_length_witness :
    try_from_iter Nat 3 [1, 2, 3] = some ⟨Except.ok [1, 2, 3], 3, []⟩ :=
  C1_roundtrip_exact_length [1, 2, 3] rfl

/-- Claim C2: `try_from_iter` returns the length-mismatch error iff the
input's length differs from `N` (shorter or longer); the error type
`NonMatchingLenError` is payload-free (all its values are equal), so
underflow and overflow yield the same error value; an input of exactly
`N` values never yields this error. -/
theorem C2_error_iff_len_mismatch {A : Type} {N : Nat} (input : List A) :
    ((∃ r, try_from_iter A N input = some r ∧ ∃ e, r.result = Except.error e)
        ↔ input.length ≠ N)
      ∧ ∀ e e' : NonMatchingLenError, e = e' := by
  constructor
  · constructor
    · rintro ⟨r, hr, e, he⟩ hlen
      rw [try_from_iter_exact input hlen] at hr
      cases hr
      exact absurd he (by simp)
    · intro hlen
      rcases Nat.lt_trichotomy input.length N with hl | hl | hl
      · exact ⟨_, try_from_iter_short input hl, ⟨⟩, rfl⟩
      · exact absurd hl hlen
      · exact ⟨_, try_from_iter_long input hl, ⟨⟩, rfl⟩
  · intro e e'
    cases e
    cases e'
    rfl

/-- Witness for C2 at `N = 2`, input `[1, 2, 3]` (a mismatch). -/
theorem C2_error_iff_len_mismatch_witness :
    ((∃ r, try_from_iter Nat 2 [1, 2, 3] = some r ∧ ∃ e, r.result = Except.error e)
        ↔ ([1, 2, 3] : List Nat).length ≠ 2)
      ∧ ∀ e e' : NonMatchingLenError, e = e' :=
  C2_error_iff_len_mismatch [1, 2, 3]

/-- Claim C3: when the input is longer than `N`, the adapter stops at the
first extra value: exactly `N + 1` values are consumed from the sequence
(the `(N+1)`-th triggers the error, nothing after it is pulled), the
result is the error, and the abandoned buffer destructs exactly the `N`
values it already holds (the first `N` input values, in order); the extra
value is never pushed. -/
theorem C3_overflow_stops_immediately {A : Type} {N : Nat} (input : List A)
    (h : N < input.length) :
    ∃ r, try_from_iter A N input = some r ∧
      r.result = Except.error ⟨⟩ ∧
      r.consumed = N + 1 ∧
      destructedValues r.dropped = input.take N ∧
      (destructedValues r.dropped).length = N := by
  refine ⟨_, try_from_iter_long input h, rfl, rfl, ?_, ?_⟩
  · exact destructedValues_canonState (input.take N)
  · rw [destructedValues_canonState]
    rw [List.length_take]
    omega

/-- Witness for C3 at `N = 2`, input `[5, 6, 7]`. -/
theorem C3_overflow_stops_immediately_witness :
    ∃ r, try_from_iter Nat 2 [5, 6, 7] = some r ∧
      r.result = Except.error ⟨⟩ ∧
      r.consumed = 3 ∧
      destructedValues r.dropped = [5, 6] ∧
      (destructedValues r.dropped).length = 2 :=
  C3_overflow_stops_immediately [5, 6, 7] (by decide)

/-- Claim C4: for every buffer state with `len ≤ N`, abandoning the buffer
runs drop actions on exactly the indices `[0, len)`, in ascending order
`0, 1, ..., len-1` (the action list's indices are exactly `range len`),
and touches no slot in `[len, N)` (every acted-on index is `< len`);
the action at index `j` drops exactly the contents of slot `j`. -/
theorem C4_drop_destructs_prefix_in_order {A : Type} {N : Nat}
    (p : PartialArray A N) (h : p.len ≤ N) :
    p.dropActions.map Prod.fst = List.range p.len ∧
    (∀ a ∈ p.dropActions, a.1 < p.len) ∧
    p.dropActions = (List.range p.len).map fun j => (j, p.array.getD j none) := by
  refine ⟨?_, ?_, dropActions_eq p⟩
  · have hcomp : (Prod.fst ∘ fun j : Nat => (j, p.array.getD j none)) = id := rfl
    rw [dropActions_eq, List.map_map, hcomp, List.map_id]
  · intro a ha
    rw [dropActions_eq] at ha
    obtain ⟨j, hj, rfl⟩ := List.mem_map.mp ha
    exact List.mem_range.mp hj

/-- Witness for C4: capacity 3, two pushed values. -/
theorem C4_drop_destructs_prefix_in_order_witness :
    (canonState Nat 3 [10, 20]).dropActions.map Prod.fst
        = List.range (canonState Nat 3 [10, 20]).len ∧
    (∀ a ∈ (canonState Nat 3 [10, 20]).dropActions,
        a.1 < (canonState Nat 3 [10, 20]).len) ∧
    (canonState Nat 3 [10, 20]).dropActions
        = (List.range (canonState Nat 3 [10, 20]).len).map
            fun j => (j, (canonState Nat 3 [10, 20]).array.getD j none) :=
  C4_drop_destructs_prefix_in_order (canonState Nat 3 [10, 20]) (by decide)

/-- Claim C5: for every reachable buffer with `len = N` (reached by pushing
the values `vs` into a fresh buffer), `into_array` hands exactly those `N`
values to the caller, and `mem::forget` disarms the buffer's destructor:
the consumed buffer shell destructs nothing, and the values are destructed
only via the returned array's own lifecycle (in index order), so each value
is destructed exactly once. -/
theorem C5_into_array_transfers_ownership_once {A : Type} {N : Nat}
    (vs : List A) (p : PartialArray A N)
    (hreach : pushAll (PartialArray.new A N) vs = some p)
    (hfull : p.len = N) :
    p.into_array = some vs ∧ finalizeLifecycle p = some ([], vs) := by
  obtain ⟨hle, rfl⟩ := pushAll_new_some hreach
  have hlen : vs.length = N := hfull
  refine ⟨into_array_canonState vs hlen, ?_⟩
  rw [finalizeLifecycle, into_array_canonState vs hlen, Option.map_some']

/-- Witness for C5: three pushed values at capacity 3. -/
theorem C5_into_array_transfers_ownership_once_witness :
    (canonState Nat 3 [1, 2, 3]).into_array = some [1, 2, 3] ∧
    finalizeLifecycle (canonState Nat 3 [1, 2, 3]) = some ([], [1, 2, 3]) :=
  C5_into_array_transfers_ownership_once [1, 2, 3] (canonState Nat 3 [1, 2, 3])
    (by decide) (by decide)

/-- Claim C6: both contract violations abort (panic, modelled as `none`)
rather than proceeding: `push` on a buffer with `len = N` returns no new
state (the value is not written, no slot is overwritten), and `into_array`
on a buffer with `len < N` produces no array.  Under the preconditions
(`len < N` for `push`; `len = N` with all slots initialized for
`into_array`) the assertion branches are unreachable: the operations
succeed. -/
theorem C6_contract_violations_abort {A : Type} {N : Nat} :
    (∀ (p : PartialArray A N) (v : A), p.len = N → p.push v = none) ∧
    (∀ p : PartialArray A N, p.len < N → p.into_array = none) ∧
    (∀ (p : PartialArray A N) (v : A), p.len < N → ∃ q, p.push v = some q) ∧
    (∀ p : PartialArray A N, p.len = N → (∀ o ∈ p.array, o.isSome) →
      ∃ arr, p.into_array = some arr) := by
  refine ⟨?_, ?_, ?_, ?_⟩
  · intro p v h
    simp [PartialArray.push, h]
  · intro p h
    rw [PartialArray.into_array, if_neg]
    simp only [PartialArray.full, beq_iff_eq]
    omega
  · intro p v h
    exact ⟨_, by rw [PartialArray.push, if_pos h]⟩
  · intro p h hall
    have hfull : p.full = true := by
      simp [PartialArray.full, h]
    rw [PartialArray.into_array, if_pos hfull]
    exact readInit_all_some p.array hall

/-- Witness for C6: a full buffer of capacity 2 rejects a push, and a
buffer holding 1 of 2 values rejects finalization. -/
theorem C6_contract_violations_abort_witness :
    (canonState Nat 2 [1, 2]).push 9 = none ∧
    (canonState Nat 2 [1]).into_array = none :=
  ⟨(@C6_contract_violations_abort Nat 2).1 (canonState Nat 2 [1, 2]) 9 (by decide),
   (@C6_contract_violations_abort Nat 2).2.1 (canonState Nat 2 [1]) (by decide)⟩

/-- Claim C7: for every buffer with `len < N` (and well-formed storage of
`N` slots), `push v` succeeds, writes `some v` into slot `len`, increments
`len` by exactly 1, leaves every other slot's contents unchanged, and
keeps the storage length: exactly one slot changes. -/
theorem C7_push_writes_one_slot {A : Type} {N : Nat} (p : PartialArray A N)
    (v : A) (h : p.len < N) (hw : p.array.length = N) :
    ∃ q, p.push v = some q ∧
      q.len = p.len + 1 ∧
      q.array[p.len]? = some (some v) ∧
      (∀ i, i ≠ p.len → q.array[i]? = p.array[i]?) ∧
      q.array.length = p.array.length := by
  refine ⟨⟨p.array.set p.len (some v), p.len + 1⟩, by rw [PartialArray.push, if_pos h],
    rfl, ?_, ?_, ?_⟩
  · exact List.getElem?_set_self (by omega)
  · intro i hi
    exact List.getElem?_set_ne (Ne.symm hi)
  · exact List.length_set p.array p.len (some v)

/-- Witness for C7: pushing 8 into a capacity-3 buffer holding `[7]`. -/
theorem C7_push_writes_one_slot_witness :
    ∃ q, (canonState Nat 3 [7]).push 8 = some q ∧
      q.len = (canonState Nat 3 [7]).len + 1 ∧
      q.array[(canonState Nat 3 [7]).len]? = some (some 8) ∧
      (∀ i, i ≠ (canonState Nat 3 [7]).len →
        q.array[i]? = (canonState Nat 3 [7]).array[i]?) ∧
      q.array.length = (canonState Nat 3 [7]).array.length :=
  C7_push_writes_one_slot (canonState Nat 3 [7]) 8 (by decide) (by decide)

/-- Claim C8: the invariant `0 ≤ len ≤ N` holds in every reachable buffer
state: a fresh buffer has `len = 0`; every successful push increases `len`
by exactly 1 and only fires while `len < N`; hence `len` never decreases
and any state reached from a fresh buffer by pushes has `len ≤ N`. -/
theorem C8_len_invariant {A : Type} {N : Nat} :
    (PartialArray.new A N).len = 0 ∧
    (∀ (p q : PartialArray A N) (v : A), p.push v = some q →
      q.len = p.len + 1 ∧ p.len < N) ∧
    (∀ (vs : List A) (p : PartialArray A N),
      pushAll (PartialArray.new A N) vs = some p → p.len ≤ N) := by
  refine ⟨rfl, ?_, ?_⟩
  · intro p q v hpq
    rw [PartialArray.push] at hpq
    by_cases hlt : p.len < N
    · rw [if_pos hlt] at hpq
      cases hpq
      exact ⟨rfl, hlt⟩
    · rw [if_neg hlt] at hpq
      cases hpq
  · intro vs p hp
    obtain ⟨hle, rfl⟩ := pushAll_new_some hp
    exact hle

/-- Witness for C8: a successful push on a capacity-2 buffer holding one
value, and the reachable state after pushing two values. -/
theorem C8_len_invariant_witness :
    ((canonState Nat 2 [5, 6]).len = (canonState Nat 2 [5]).len + 1 ∧
      (canonState Nat 2 [5]).len < 2) ∧
    (canonState Nat 2 [5, 6]).len ≤ 2 :=
  ⟨(@C8_len_invariant Nat 2).2.1 (canonState Nat 2 [5]) (canonState Nat 2 [5, 6]) 6
      (by decide),
   (@C8_len_invariant Nat 2).2.2 [5, 6] (canonState Nat 2 [5, 6]) (by decide)⟩

/-- Claim C9: `full` returns exactly the proposition `len = N` (it is a
pure function of the state); a fresh buffer has `len = 0` and all `N`
slots uninitialized, so for `N > 0` a fresh buffer reports `full = false`,
and abandoning a fresh buffer destructs nothing (its drop action list is
empty). -/
theorem C9_full_iff_and_fresh_empty {A : Type} {N : Nat} :
    (∀ p : PartialArray A N, p.full = true ↔ p.len = N) ∧
    (PartialArray.new A N).len = 0 ∧
    (PartialArray.new A N).array = List.replicate N none ∧
    (0 < N → (PartialArray.new A N).full = false) ∧
    (PartialArray.new A N).dropActions = [] := by
  refine ⟨?_, rfl, rfl, ?_, rfl⟩
  · intro p
    simp [PartialArray.full]
  · intro h
    simp only [PartialArray.full, PartialArray.new, beq_eq_false_iff_ne, ne_eq]
    omega

/-- Witness for C9 at `A = Nat`, `N = 3`. -/
theorem C9_full_iff_and_fresh_empty_witness :
    ((PartialArray.new Nat 3).full = true ↔ (PartialArray.new Nat 3).len = 3) ∧
    (PartialArray.new Nat 3).full = false :=
  ⟨(@C9_full_iff_and_fresh_empty Nat 3).1 (PartialArray.new Nat 3),
   (@C9_full_iff_and_fresh_empty Nat 3).2.2.2.1 (by decide)⟩

/-- Claim C10 (edge case `N = 0`): `try_from_iter` into a zero-length array
succeeds with the empty array on empty input, and errors as soon as the
sequence produces its first value (exactly one value consumed, nothing
destructed), because a fresh buffer of capacity 0 is already full. -/
theorem C10_zero_capacity {A : Type} :
    try_from_iter A 0 [] = some ⟨Except.ok [], 0, []⟩ ∧
    (∀ (v : A) (vs : List A),
      try_from_iter A 0 (v :: vs) = some ⟨Except.error ⟨⟩, 1, []⟩) ∧
    (PartialArray.new A 0).full = true := by
  refine ⟨try_from_iter_exact [] rfl, ?_, rfl⟩
  intro v vs
  rw [try_from_iter_long (v :: vs) (by simp)]
  rfl

/-- Witness for C10: the singleton input `[42]` at `N = 0`. -/
theorem C10_zero_capacity_witness :
    try_from_iter Nat 0 [42] = some ⟨Except.error ⟨⟩, 1, []⟩ :=
  (@C10_zero_capacity Nat).2.1 42 []
